import Mathlib

set_option maxHeartbeats 1000000

/-!
Verification of the demo storefront's cart/checkout core (`demo-app/app.js`).

The JavaScript is shallowly embedded as follows: JS strings are handled as
`List Char` (with `String` only at the outer boundary), JS numbers are exact
rationals `ℚ` (every money value in the program is a 2-decimal literal, and
every quantity an integer, so the idealised decimal arithmetic coincides with
the observable behaviour being specified), fallible operations return
`Option`/`Except` where the JS throws, and the implicit browser clock and
`Math.random()` become explicit parameters.
-/

/-! ### JS string primitives -/

/-- The character class of the JS regex `\s` (used by
`value.replace(/\s/g, '')` in `handleCheckout` and by `parseInt`'s
leading-whitespace skip): space, tab, line terminators, and the Unicode
space separators. -/
def isJsSpace (c : Char) : Bool :=
  c == ' ' || c == '\t' || c == '\n' || c == '\r' ||
  c == Char.ofNat 11 || c == Char.ofNat 12 ||
  c == Char.ofNat 0xa0 || c == Char.ofNat 0x1680 ||
  (0x2000 ≤ c.toNat && c.toNat ≤ 0x200a) ||
  c == Char.ofNat 0x2028 || c == Char.ofNat 0x2029 ||
  c == Char.ofNat 0x202f || c == Char.ofNat 0x205f ||
  c == Char.ofNat 0x3000 || c == Char.ofNat 0xfeff

/-- JS `String.prototype.length`: the number of UTF-16 code units (astral
characters count twice). -/
def jsLen (l : List Char) : Nat :=
  l.foldl (fun n c => n + (if 0x10000 ≤ c.toNat then 2 else 1)) 0

/-- Decimal digit character test, `'0'` through `'9'`. -/
def isDigitC (c : Char) : Bool := 48 ≤ c.toNat && c.toNat ≤ 57

/-- Numeric value of a decimal digit character. -/
def digitVal (c : Char) : Nat := c.toNat - 48

/-- Greedy decimal-digit scan: starting from accumulated value `v` after `k`
digits, consume the longest run of digits, returning the value, the total
digit count, and the remainder. -/
def scanDigits (v k : Nat) : List Char → Nat × Nat × List Char
  | [] => (v, k, [])
  | c :: rest =>
    if isDigitC c then scanDigits (v * 10 + digitVal c) (k + 1) rest
    else (v, k, c :: rest)

/-- Value of a hexadecimal digit character, `none` for anything else. -/
def hexDigitVal (c : Char) : Option Nat :=
  if isDigitC c then some (digitVal c)
  else if 97 ≤ c.toNat && c.toNat ≤ 102 then some (c.toNat - 87)
  else if 65 ≤ c.toNat && c.toNat ≤ 70 then some (c.toNat - 55)
  else none

/-- Greedy hexadecimal-digit scan (value and remainder). -/
def scanHex (v : Nat) : List Char → Nat × List Char
  | [] => (v, [])
  | c :: rest =>
    match hexDigitVal c with
    | some d => scanHex (v * 16 + d) rest
    | none => (v, c :: rest)

/-- Value of the leading decimal-digit run, `none` when the first character is
no digit (`parseInt` reads a digit run and ignores everything after it). -/
def decLead (l : List Char) : Option Nat :=
  match l with
  | c :: _ => if isDigitC c then some (scanDigits 0 0 l).1 else none
  | [] => none

/-- Value of the leading hexadecimal-digit run, `none` when empty. -/
def hexLead (l : List Char) : Option Nat :=
  match l with
  | c :: _ => if (hexDigitVal c).isSome then some (scanHex 0 l).1 else none
  | [] => none

/-- JS `parseInt(s)` with no radix argument: skip leading whitespace, read an
optional sign, auto-detect a `0x`/`0X` hexadecimal literal, otherwise read
leading decimal digits; `none` models the `NaN` result. -/
def jsParseInt (s : List Char) : Option Int :=
  let t := s.dropWhile isJsSpace
  let sgn : Int :=
    match t with
    | c :: _ => if c = '-' then -1 else 1
    | [] => 1
  let u :=
    match t with
    | c :: rest => if c = '-' ∨ c = '+' then rest else t
    | [] => t
  match u with
  | z :: x :: rest =>
    if z = '0' ∧ (x = 'x' ∨ x = 'X') then (fun n => sgn * (n : Int)) <$> hexLead rest
    else (fun n => sgn * (n : Int)) <$> decLead u
  | _ => (fun n => sgn * (n : Int)) <$> decLead u

/-- `expiry.split('/')` for the one-character separator `'/'` (the accumulator
`cur` holds the current field reversed). -/
def splitSlashAux (cur : List Char) : List Char → List (List Char)
  | [] => [cur.reverse]
  | c :: rest =>
    if c = '/' then cur.reverse :: splitSlashAux [] rest
    else splitSlashAux (c :: cur) rest

/-! ### Data model: catalog and cart -/

/-- One cart line item, the object `{ sku, name, price, quantity }` built in
`addToCart`. -/
structure LineItem where
  sku : String
  name : String
  price : ℚ
  quantity : Int
deriving DecidableEq, Repr

/-- The global `cart` array: an ordered list of line items. -/
abbrev Cart := List LineItem

/-- The static `products` catalog object: sku to (name, price). -/
def products (sku : String) : Option (String × ℚ) :=
  if sku = "LAPTOP-001" then some ("Gaming Laptop Pro", 1299.99)
  else if sku = "HEADPHONES-001" then some ("Wireless Headphones Pro", 299.99)
  else if sku = "KEYBOARD-001" then some ("Mechanical Keyboard RGB", 149.99)
  else if sku = "MOUSE-001" then some ("Gaming Mouse Ultra", 79.99)
  else none

/-- Exceptions the embedded code can throw. -/
inductive JsError where
  /-- The spec's `ProductNotFound`: in the code, the `TypeError` thrown by
  `products[sku].name` when the catalog lookup yields `undefined`. -/
  | productNotFound
  /-- The `SyntaxError` thrown by `JSON.parse` on malformed input. -/
  | syntaxError
deriving DecidableEq, Repr

/-! ### Cart mutation -/

/-- The in-place `existingItem.quantity += 1` on the first item whose `sku`
matches (the one `cart.find` returned). -/
def bumpFirst : Cart → String → Cart
  | [], _ => []
  | it :: rest, sku =>
    if it.sku = sku then { it with quantity := it.quantity + 1 } :: rest
    else it :: bumpFirst rest sku

/-- `addToCart(sku)`: if a line item with this sku exists, increment its
quantity, otherwise append a fresh item built from the catalog; on an unknown
sku the catalog lookup throws before anything is pushed, so the cart is
untouched. -/
def addToCart (cart : Cart) (sku : String) : Except JsError Cart :=
  match cart.find? (fun it => it.sku == sku) with
  | some _ => .ok (bumpFirst cart sku)
  | none =>
    match products sku with
    | some p => .ok (cart ++ [⟨sku, p.1, p.2, 1⟩])
    | none => .error .productNotFound

/-- `updateQuantity(index, change)`: add `change` to the quantity at `index`,
remove the item when the result drops to 0 or below. `none` models the
`TypeError` from `cart[index].quantity` when `index` is out of bounds
(negative or past the end), thrown before any mutation. -/
def updateQuantity (cart : Cart) (index : Int) (change : Int) : Option Cart :=
  if h : 0 ≤ index ∧ index.toNat < cart.length then
    let it := cart.get ⟨index.toNat, h.2⟩
    let q := it.quantity + change
    some (if q ≤ 0 then cart.eraseIdx index.toNat
          else cart.set index.toNat { it with quantity := q })
  else none

/-- `removeItem(index)`: `cart.splice(index, 1)` with JS splice index
handling — a negative index counts from the end (clamped at 0), an index past
the end removes nothing. -/
def removeItem (cart : Cart) (index : Int) : Cart :=
  cart.eraseIdx (if index < 0 then ((cart.length : Int) + index).toNat else index.toNat)

/-- The user-triggered cart mutations (`clear` is the `cart = []` reset used
after checkout and by the new-order button). -/
inductive CartOp where
  | add (sku : String)
  | update (index : Int) (change : Int)
  | remove (index : Int)
  | clear
deriving Repr

/-- State of the global `cart` after one operation; a thrown exception leaves
the cart as it was (both faulting operations throw before mutating). -/
def applyOp (cart : Cart) : CartOp → Cart
  | .add sku =>
    match addToCart cart sku with
    | .ok c => c
    | .error _ => cart
  | .update i d =>
    match updateQuantity cart i d with
    | some c => c
    | none => cart
  | .remove i => removeItem cart i
  | .clear => []

/-- The cart reached from the initial empty `cart = []` by a sequence of
operations. -/
def runOps (ops : List CartOp) : Cart := ops.foldl applyOp []

/-! ### Pricing -/

/-- `cart.reduce((sum, item) => sum + (item.price * item.quantity), 0)`, as in
`updateCartSummary` and `calculateTotal`. -/
def cartSubtotal (cart : Cart) : ℚ :=
  cart.foldl (fun sum it => sum + it.price * (it.quantity : ℚ)) 0

/-- `const tax = subtotal * 0.1`. -/
def cartTax (cart : Cart) : ℚ := cartSubtotal cart * 0.1

/-- `calculateTotal()`: `subtotal + tax`. -/
def calculateTotal (cart : Cart) : ℚ := cartSubtotal cart + cartTax cart

/-- Rounding to cents as the `Intl.NumberFormat` currency display does for the
nonnegative amounts here (half away from zero). -/
def round2 (q : ℚ) : ℚ := (⌊q * 100 + 1 / 2⌋ : ℚ) / 100

/-! ### Checkout validation -/

/-- Outcome of the card checks in `handleCheckout`. -/
inductive ValidationResult where
  | invalidCardLength
  | cardExpired
  | ok
deriving DecidableEq, Repr

/-- `document.getElementById('card-number').value.replace(/\s/g, '')`. -/
def cardStripped (card : String) : List Char :=
  card.data.filter (fun c => !isJsSpace c)

/-- `expiry.split('/')`. -/
def expiryParts (expiry : String) : List (List Char) :=
  splitSlashAux [] expiry.data

/-- `parseInt(month)` where `const [month, year] = expiry.split('/')`. -/
def expiryMonthVal (expiry : String) : Option Int :=
  jsParseInt ((expiryParts expiry).headD [])

/-- `parseInt(year)`; when the split has no second field, `year` is
`undefined` and `parseInt(undefined)` is `NaN` (`none`). -/
def expiryYearVal (expiry : String) : Option Int :=
  match (expiryParts expiry)[1]? with
  | some p => jsParseInt p
  | none => none

/-- JS `<` with a possibly-`NaN` left operand: any comparison against `NaN`
is false. -/
def jsLt (a : Option Int) (b : Int) : Bool :=
  match a with
  | some v => v < b
  | none => false

/-- JS `===` with a possibly-`NaN` left operand: false against `NaN`. -/
def jsEq (a : Option Int) (b : Int) : Bool :=
  match a with
  | some v => v = b
  | none => false

/-- The validation prefix of `handleCheckout(e)`: card-number length check,
then the expiry check against the current date (`fullYear` is
`new Date().getFullYear()`, `month` is `getMonth() + 1`). -/
def validateCard (card expiry : String) (fullYear month : Nat) : ValidationResult :=
  if jsLen (cardStripped card) ≠ 16 then .invalidCardLength
  else
    let cy : Int := ((fullYear % 100 : Nat) : Int)
    if jsLt (expiryYearVal expiry) cy ||
        (jsEq (expiryYearVal expiry) cy && jsLt (expiryMonthVal expiry) (month : Int)) then
      .cardExpired
    else .ok

/-! ### C1: checkout validation -/

/-- **C1.** Checkout validation strips whitespace from the card number and
fails with `InvalidCardLength` exactly when the stripped string is not 16
characters long; otherwise, with the expiry parsed as `MM/YY`, it fails with
`CardExpired` exactly when `year < currentYear` or (`year == currentYear` and
`month < currentMonth`), the current year taken mod 100; otherwise it
succeeds. -/
theorem c1_checkout_validation (card expiry : String) (fullYear month : Nat) (m y : Int)
    (hm : expiryMonthVal expiry = some m) (hy : expiryYearVal expiry = some y) :
    (validateCard card expiry fullYear month = .invalidCardLength ↔
      jsLen (cardStripped card) ≠ 16) ∧
    (jsLen (cardStripped card) = 16 →
      (validateCard card expiry fullYear month = .cardExpired ↔
        (y < ((fullYear % 100 : Nat) : Int) ∨
          (y = ((fullYear % 100 : Nat) : Int) ∧ m < (month : Int))))) ∧
    (jsLen (cardStripped card) = 16 →
      ¬(y < ((fullYear % 100 : Nat) : Int) ∨
          (y = ((fullYear % 100 : Nat) : Int) ∧ m < (month : Int))) →
      validateCard card expiry fullYear month = .ok) := by
  have hcond : ∀ cy cm : Int,
      (jsLt (some y) cy || (jsEq (some y) cy && jsLt (some m) cm)) = true ↔
        (y < cy ∨ (y = cy ∧ m < cm)) := by
    intro cy cm
    simp [jsLt, jsEq]
  simp only [validateCard, hm, hy]
  by_cases hl : jsLen (cardStripped card) = 16
  · rw [if_neg (not_not_intro hl)]
    by_cases hb : (jsLt (some y) ((fullYear % 100 : Nat) : Int) ||
        (jsEq (some y) ((fullYear % 100 : Nat) : Int) && jsLt (some m) ((month : Nat) : Int)))
          = true
    · rw [if_pos hb]
      have hc := (hcond _ _).mp hb
      exact ⟨by simp [hl], fun _ => ⟨fun _ => hc, fun _ => rfl⟩, fun _ hnc => absurd hc hnc⟩
    · rw [if_neg hb]
      have hc : ¬(y < ((fullYear % 100 : Nat) : Int) ∨
          (y = ((fullYear % 100 : Nat) : Int) ∧ m < (month : Int))) :=
        fun h => hb ((hcond _ _).mpr h)
      exact ⟨by simp [hl], fun _ => ⟨by simp, fun h => absurd h hc⟩, fun _ _ => rfl⟩
  · rw [if_pos hl]
    exact ⟨⟨fun _ => hl, fun _ => rfl⟩, fun h => absurd h hl, fun h => absurd h hl⟩

/-- Witness for C1 at concrete inputs: a spaced 16-digit card number with
expiry `12/26` checked in October 2025 passes both checks. -/
theorem c1_checkout_validation_witness :
    (validateCard "4242 4242 4242 4242" "12/26" 2025 10 = .invalidCardLength ↔
      jsLen (cardStripped "4242 4242 4242 4242") ≠ 16) ∧
    (jsLen (cardStripped "4242 4242 4242 4242") = 16 →
      (validateCard "4242 4242 4242 4242" "12/26" 2025 10 = .cardExpired ↔
        ((26 : Int) < ((2025 % 100 : Nat) : Int) ∨
          ((26 : Int) = ((2025 % 100 : Nat) : Int) ∧ (12 : Int) < ((10 : Nat) : Int))))) ∧
    (jsLen (cardStripped "4242 4242 4242 4242") = 16 →
      ¬((26 : Int) < ((2025 % 100 : Nat) : Int) ∨
          ((26 : Int) = ((2025 % 100 : Nat) : Int) ∧ (12 : Int) < ((10 : Nat) : Int))) →
      validateCard "4242 4242 4242 4242" "12/26" 2025 10 = .ok) :=
  c1_checkout_validation "4242 4242 4242 4242" "12/26" 2025 10 12 26
    (by decide) (by decide)

/-! ### C2: pricing -/

/-- Folding the subtotal accumulator distributes over the mapped sum. -/
theorem cartSubtotal_foldl (cart : Cart) (a : ℚ) :
    cart.foldl (fun sum it => sum + it.price * (it.quantity : ℚ)) a
      = a + (cart.map (fun it => it.price * (it.quantity : ℚ))).sum := by
  induction cart generalizing a with
  | nil => simp
  | cons it rest ih => simp [List.foldl_cons, ih, add_assoc]

/-- **C2.** For every cart the subtotal is the sum of `unitPrice × quantity`
over the line items, the tax is exactly 10% of the subtotal, and the total is
subtotal plus tax; the one-laptop cart (price 1299.99, quantity 1) has
subtotal 1299.99, tax displaying as 130.00, and total displaying as
1429.99. -/
theorem c2_pricing :
    (∀ cart : Cart,
      cartSubtotal cart = (cart.map (fun it => it.price * (it.quantity : ℚ))).sum ∧
      cartTax cart = cartSubtotal cart * (1 / 10) ∧
      calculateTotal cart = cartSubtotal cart + cartTax cart) ∧
    (cartSubtotal [⟨"LAPTOP-001", "Gaming Laptop Pro", 1299.99, 1⟩] = 1299.99 ∧
      round2 (cartTax [⟨"LAPTOP-001", "Gaming Laptop Pro", 1299.99, 1⟩]) = 130 ∧
      round2 (calculateTotal [⟨"LAPTOP-001", "Gaming Laptop Pro", 1299.99, 1⟩]) = 1429.99) := by
  refine ⟨fun cart => ⟨?_, ?_, rfl⟩, ?_, ?_, ?_⟩
  · simpa using cartSubtotal_foldl cart 0
  · show cartSubtotal cart * 0.1 = cartSubtotal cart * (1 / 10)
    norm_num
  · show (0 : ℚ) + 1299.99 * (1 : Int) = 1299.99
    norm_num
  · show round2 (((0 : ℚ) + 1299.99 * (1 : Int)) * 0.1) = 130
    rw [round2]
    norm_num
  · show round2 ((0 : ℚ) + 1299.99 * (1 : Int) + ((0 : ℚ) + 1299.99 * (1 : Int)) * 0.1) = 1429.99
    rw [round2]
    norm_num

/-! ### C4: updateQuantity on an in-bounds index -/

/-- **C4.** For an in-bounds index, `updateQuantity` adds `delta` to that
item's quantity; when the result drops to 0 or below the line item is removed
outright (the cart shrinks by exactly one), and otherwise the item keeps the
increased quantity — unbounded above — with every other position untouched. -/
theorem c4_updateQuantity_inbounds (cart : Cart) (i : Nat) (delta : Int) (it : LineItem)
    (hit : cart[i]? = some it) :
    (it.quantity + delta ≤ 0 →
      updateQuantity cart i delta = some (cart.eraseIdx i) ∧
      (cart.eraseIdx i).length + 1 = cart.length) ∧
    (0 < it.quantity + delta →
      updateQuantity cart i delta = some
        (cart.set i ⟨it.sku, it.name, it.price, it.quantity + delta⟩) ∧
      (cart.set i ⟨it.sku, it.name, it.price, it.quantity + delta⟩)[i]? =
        some ⟨it.sku, it.name, it.price, it.quantity + delta⟩ ∧
      ∀ j : Nat, j ≠ i →
        (cart.set i ⟨it.sku, it.name, it.price, it.quantity + delta⟩)[j]? = cart[j]?) := by
  obtain ⟨hlen, hget⟩ := List.getElem?_eq_some.mp hit
  have hcond : 0 ≤ (i : Int) ∧ ((i : Int)).toNat < cart.length := by
    constructor
    · positivity
    · rw [Int.toNat_natCast]
      exact hlen
  have hgetF : cart.get ⟨((i : Int)).toNat, hcond.2⟩ = it := by
    simp only [Int.toNat_natCast, List.get_eq_getElem]
    exact hget
  constructor
  · intro hq
    rw [updateQuantity, dif_pos hcond]
    simp only [Int.toNat_natCast, List.get_eq_getElem, hget]
    rw [if_pos hq]
    refine ⟨rfl, ?_⟩
    rw [List.length_eraseIdx cart i, if_pos hlen]
    omega
  · intro hq
    rw [updateQuantity, dif_pos hcond]
    simp only [Int.toNat_natCast, List.get_eq_getElem, hget]
    rw [if_neg (by omega)]
    exact ⟨rfl, List.getElem?_set_self hlen, fun j hj => List.getElem?_set_ne (Ne.symm hj)⟩

/-- Witness for C4: bumping the only item of a one-item cart by +1 leaves a
quantity-3 item in place. -/
theorem c4_updateQuantity_inbounds_witness :
    ((⟨"A", "a", 1, 2⟩ : LineItem).quantity + 1 ≤ 0 →
      updateQuantity [⟨"A", "a", 1, 2⟩] 0 1 = some (([⟨"A", "a", 1, 2⟩] : Cart).eraseIdx 0) ∧
      (([⟨"A", "a", 1, 2⟩] : Cart).eraseIdx 0).length + 1 = ([⟨"A", "a", 1, 2⟩] : Cart).length) ∧
    (0 < (⟨"A", "a", 1, 2⟩ : LineItem).quantity + 1 →
      updateQuantity [⟨"A", "a", 1, 2⟩] 0 1 = some
        (([⟨"A", "a", 1, 2⟩] : Cart).set 0
          ⟨(⟨"A", "a", 1, 2⟩ : LineItem).sku, (⟨"A", "a", 1, 2⟩ : LineItem).name,
            (⟨"A", "a", 1, 2⟩ : LineItem).price, (⟨"A", "a", 1, 2⟩ : LineItem).quantity + 1⟩) ∧
      (([⟨"A", "a", 1, 2⟩] : Cart).set 0
          ⟨(⟨"A", "a", 1, 2⟩ : LineItem).sku, (⟨"A", "a", 1, 2⟩ : LineItem).name,
            (⟨"A", "a", 1, 2⟩ : LineItem).price, (⟨"A", "a", 1, 2⟩ : LineItem).quantity + 1⟩)[0]? =
        some ⟨(⟨"A", "a", 1, 2⟩ : LineItem).sku, (⟨"A", "a", 1, 2⟩ : LineItem).name,
            (⟨"A", "a", 1, 2⟩ : LineItem).price, (⟨"A", "a", 1, 2⟩ : LineItem).quantity + 1⟩ ∧
      ∀ j : Nat, j ≠ 0 →
        (([⟨"A", "a", 1, 2⟩] : Cart).set 0
          ⟨(⟨"A", "a", 1, 2⟩ : LineItem).sku, (⟨"A", "a", 1, 2⟩ : LineItem).name,
            (⟨"A", "a", 1, 2⟩ : LineItem).price, (⟨"A", "a", 1, 2⟩ : LineItem).quantity + 1⟩)[j]? =
        ([⟨"A", "a", 1, 2⟩] : Cart)[j]?) :=
  c4_updateQuantity_inbounds [⟨"A", "a", 1, 2⟩] 0 1 ⟨"A", "a", 1, 2⟩ rfl

/-! ### C10: updateQuantity on an out-of-bounds index -/

/-- **C10.** On any index outside the cart (negative, or at least the
length), `updateQuantity` dereferences the missing element and faults — the
`TypeError` branch (`none`) is taken, not a no-op and not an error report. -/
theorem c10_updateQuantity_oob (cart : Cart) (index change : Int)
    (h : index < 0 ∨ (cart.length : Int) ≤ index) :
    updateQuantity cart index change = none := by
  rw [updateQuantity, dif_neg]
  rintro ⟨h0, hlt⟩
  omega

/-- Witness for C10: index 0 on the empty cart faults. -/
theorem c10_updateQuantity_oob_witness : updateQuantity [] 0 1 = none :=
  c10_updateQuantity_oob [] 0 1 (Or.inr (by simp))

/-! ### C9: the quantity invariant -/

/-- Quantity lower bound over a whole cart. -/
def qtyInv (cart : Cart) : Prop := ∀ it ∈ cart, 1 ≤ it.quantity

/-- Membership in `List.set` comes from the new value or from the old list. -/
theorem mem_set_elim {α : Type} {l : List α} {i : Nat} {a x : α}
    (hx : x ∈ l.set i a) : x = a ∨ x ∈ l := by
  induction l generalizing i with
  | nil => simp at hx
  | cons b t ih =>
    cases i with
    | zero =>
      rcases List.mem_cons.mp hx with h | h
      · exact Or.inl h
      · exact Or.inr (List.mem_cons_of_mem b h)
    | succ n =>
      rcases List.mem_cons.mp hx with h | h
      · exact Or.inr (h ▸ List.mem_cons_self b t)
      · rcases ih h with h' | h'
        · exact Or.inl h'
        · exact Or.inr (List.mem_cons_of_mem b h')

/-- `bumpFirst` keeps all quantities at least 1 (the bumped one grows). -/
theorem bumpFirst_qtyInv (cart : Cart) (sku : String) (h : qtyInv cart) :
    qtyInv (bumpFirst cart sku) := by
  induction cart with
  | nil => exact h
  | cons b t ih =>
    intro it hit
    rw [bumpFirst] at hit
    by_cases hb : b.sku = sku
    · rw [if_pos hb] at hit
      rcases List.mem_cons.mp hit with heq | hmem
      · have hbq : 1 ≤ b.quantity := h b (List.mem_cons_self b t)
        rw [heq]
        simp only []
        omega
      · exact h it (List.mem_cons_of_mem b hmem)
    · rw [if_neg hb] at hit
      rcases List.mem_cons.mp hit with heq | hmem
      · exact heq ▸ h b (List.mem_cons_self b t)
      · exact ih (fun x hx => h x (List.mem_cons_of_mem b hx)) it hmem

/-- A successful `updateQuantity` preserves the quantity bound: the touched
item is either removed (result ≤ 0) or keeps a positive quantity. -/
theorem updateQuantity_some_inv {cart : Cart} {i d : Int} {c : Cart}
    (hu : updateQuantity cart i d = some c) (h : qtyInv cart) : qtyInv c := by
  simp only [updateQuantity] at hu
  split at hu
  · have hc := Option.some.inj hu
    intro it hit
    rw [← hc] at hit
    split at hit
    · exact h it (List.Sublist.mem hit (List.eraseIdx_sublist cart _))
    · next hq =>
      rcases mem_set_elim hit with heq | hmem
      · simp only [heq]
        omega
      · exact h it hmem
  · exact absurd hu (by simp)

/-- Each cart operation preserves the quantity invariant. -/
theorem applyOp_qtyInv (cart : Cart) (op : CartOp) (h : qtyInv cart) :
    qtyInv (applyOp cart op) := by
  cases op with
  | add sku =>
    rw [applyOp, addToCart]
    cases hf : cart.find? (fun it => it.sku == sku) with
    | some x => exact bumpFirst_qtyInv cart sku h
    | none =>
      cases hp : products sku with
      | some p =>
        intro it hit
        rcases List.mem_append.mp hit with hmem | hmem
        · exact h it hmem
        · simp [List.mem_singleton.mp hmem]
      | none => exact h
  | update i d =>
    rw [applyOp]
    cases hu : updateQuantity cart i d with
    | none => exact h
    | some c => exact updateQuantity_some_inv hu h
  | remove i =>
    intro it hit
    exact h it (List.Sublist.mem hit (List.eraseIdx_sublist cart _))
  | clear =>
    intro it hit
    exact absurd hit (List.not_mem_nil it)

/-- **C9.** Starting from the empty cart, after any sequence of cart
operations every line item present has quantity at least 1: no operation
leaves a zero-or-below quantity in the cart. -/
theorem c9_quantity_invariant (ops : List CartOp) :
    ∀ it ∈ runOps ops, 1 ≤ it.quantity := by
  rw [runOps]
  have : ∀ c : Cart, qtyInv c → qtyInv (ops.foldl applyOp c) := by
    induction ops with
    | nil => exact fun c h => h
    | cons op rest ih =>
      intro c h
      exact ih (applyOp c op) (applyOp_qtyInv c op h)
  exact this [] (fun it hit => absurd hit (List.not_mem_nil it))

/-- Witness for C9: the item added by one `addToCart` has quantity 1 ≥ 1. -/
theorem c9_quantity_invariant_witness :
    1 ≤ (⟨"MOUSE-001", "Gaming Mouse Ultra", 79.99, 1⟩ : LineItem).quantity :=
  c9_quantity_invariant [CartOp.add "MOUSE-001"]
    ⟨"MOUSE-001", "Gaming Mouse Ultra", 79.99, 1⟩
    (by simp [runOps, applyOp, addToCart, products])

/-! ### C3: repeated addToCart with one sku -/

/-- `bumpFirst` on a cart whose only match is the appended last item bumps
exactly that item. -/
theorem bumpFirst_append_last {cart : Cart} {x : LineItem} {sku : String}
    (h : ∀ it ∈ cart, it.sku ≠ sku) (hx : x.sku = sku) :
    bumpFirst (cart ++ [x]) sku = cart ++ [{ x with quantity := x.quantity + 1 }] := by
  induction cart with
  | nil => simp [bumpFirst, hx]
  | cons b t ih =>
    have hb : b.sku ≠ sku := h b (List.mem_cons_self b t)
    simp only [List.cons_append, bumpFirst, if_neg hb]
    exact congrArg (b :: ·) (ih (fun it hit => h it (List.mem_cons_of_mem b hit)))

/-- The fresh-item equation of `addToCart` when the sku is absent from the
cart but present in the catalog. -/
theorem addToCart_new {cart : Cart} {sku nm : String} {pr : ℚ}
    (hfind : cart.find? (fun it => it.sku == sku) = none)
    (hp : products sku = some (nm, pr)) :
    addToCart cart sku = .ok (cart ++ [⟨sku, nm, pr, 1⟩]) := by
  rw [addToCart, hfind, hp]

/-- The increment equation of `addToCart` when the sku is already present. -/
theorem addToCart_found {cart : Cart} {sku : String} {x : LineItem}
    (hfind : cart.find? (fun it => it.sku == sku) = some x) :
    addToCart cart sku = .ok (bumpFirst cart sku) := by
  rw [addToCart, hfind]

/-- `applyOp` forwards a successful `addToCart`. -/
theorem applyOp_add_ok {cart c : Cart} {sku : String}
    (h : addToCart cart sku = .ok c) : applyOp cart (.add sku) = c := by
  rw [applyOp, h]

/-- After `n ≥ 1` adds of one catalog sku onto a cart free of that sku, the
cart is exactly the old cart plus one fresh line item of quantity `n`. -/
theorem runOps_add_replicate (cart₀ : Cart) (sku nm : String) (pr : ℚ) (n : Nat)
    (hp : products sku = some (nm, pr)) (h₀ : ∀ it ∈ cart₀, it.sku ≠ sku) (hn : 1 ≤ n) :
    (List.replicate n (CartOp.add sku)).foldl applyOp cart₀
      = cart₀ ++ [⟨sku, nm, pr, (n : Int)⟩] := by
  have hfind₀ : cart₀.find? (fun it => it.sku == sku) = none :=
    List.find?_eq_none.mpr (fun it hit => by simp [h₀ it hit])
  induction n with
  | zero => omega
  | succ k ih =>
    cases Nat.eq_zero_or_pos k with
    | inl hk =>
      subst hk
      rw [show List.replicate 1 (CartOp.add sku) = [CartOp.add sku] from rfl,
        List.foldl_cons, List.foldl_nil, applyOp_add_ok (addToCart_new hfind₀ hp)]
      norm_num
    | inr hk =>
      rw [List.replicate_succ' k (CartOp.add sku), List.foldl_append, ih hk]
      have hfind : (cart₀ ++ [(⟨sku, nm, pr, (k : Int)⟩ : LineItem)]).find?
          (fun it => it.sku == sku) = some ⟨sku, nm, pr, (k : Int)⟩ := by
        rw [List.find?_append, hfind₀]
        simp [List.find?]
      rw [List.foldl_cons, List.foldl_nil, applyOp_add_ok (addToCart_found hfind),
        bumpFirst_append_last h₀ rfl]
      push_cast
      rfl

/-- **C3.** Starting from a cart not containing a catalog sku, `n ≥ 1` calls
of `addToCart` with that sku leave the old items untouched plus exactly one
line item for the sku, and its quantity is `n`. -/
theorem c3_repeated_addToCart (cart₀ : Cart) (sku nm : String) (pr : ℚ) (n : Nat)
    (hp : products sku = some (nm, pr)) (h₀ : ∀ it ∈ cart₀, it.sku ≠ sku) (hn : 1 ≤ n) :
    (List.replicate n (CartOp.add sku)).foldl applyOp cart₀
      = cart₀ ++ [⟨sku, nm, pr, (n : Int)⟩] ∧
    ((List.replicate n (CartOp.add sku)).foldl applyOp cart₀).countP
        (fun it => it.sku == sku) = 1 ∧
    ∀ it ∈ (List.replicate n (CartOp.add sku)).foldl applyOp cart₀,
      it.sku = sku → it.quantity = (n : Int) := by
  have heq := runOps_add_replicate cart₀ sku nm pr n hp h₀ hn
  rw [heq]
  refine ⟨rfl, ?_, ?_⟩
  · rw [List.countP_append]
    have h1 : cart₀.countP (fun it => it.sku == sku) = 0 :=
      List.countP_eq_zero.mpr (fun it hit => by simp [h₀ it hit])
    simp [h1]
  · intro it hit hsku
    rcases List.mem_append.mp hit with hmem | hmem
    · exact absurd hsku (h₀ it hmem)
    · rw [List.mem_singleton.mp hmem]

/-- Witness for C3: two adds of the mouse sku onto the empty cart yield one
line item of quantity 2. -/
theorem c3_repeated_addToCart_witness :
    (List.replicate 2 (CartOp.add "MOUSE-001")).foldl applyOp []
      = [] ++ [⟨"MOUSE-001", "Gaming Mouse Ultra", 79.99, ((2 : Nat) : Int)⟩] ∧
    ((List.replicate 2 (CartOp.add "MOUSE-001")).foldl applyOp []).countP
        (fun it => it.sku == "MOUSE-001") = 1 ∧
    ∀ it ∈ (List.replicate 2 (CartOp.add "MOUSE-001")).foldl applyOp [],
      it.sku = "MOUSE-001" → it.quantity = ((2 : Nat) : Int) :=
  c3_repeated_addToCart [] "MOUSE-001" "Gaming Mouse Ultra" 79.99 2 rfl
    (by simp) (by norm_num)

/-! ### C6: addToCart on an unknown product id -/

/-- Sequential preservation of a cart predicate along `foldl applyOp`. -/
theorem foldl_applyOp_pres {P : Cart → Prop} (hP : ∀ c op, P c → P (applyOp c op))
    (ops : List CartOp) {c : Cart} (h : P c) : P (ops.foldl applyOp c) := by
  induction ops generalizing c with
  | nil => exact h
  | cons op rest ih => exact ih (hP c op h)

/-- Catalog closure over a whole cart: every item's sku resolves. -/
def catInv (cart : Cart) : Prop := ∀ it ∈ cart, (products it.sku).isSome

/-- `bumpFirst` never changes any item's sku. -/
theorem bumpFirst_catInv (cart : Cart) (sku : String) (h : catInv cart) :
    catInv (bumpFirst cart sku) := by
  induction cart with
  | nil => exact h
  | cons b t ih =>
    intro it hit
    rw [bumpFirst] at hit
    by_cases hb : b.sku = sku
    · rw [if_pos hb] at hit
      rcases List.mem_cons.mp hit with heq | hmem
      · have := h b (List.mem_cons_self b t)
        simp only [heq]
        exact this
      · exact h it (List.mem_cons_of_mem b hmem)
    · rw [if_neg hb] at hit
      rcases List.mem_cons.mp hit with heq | hmem
      · exact heq ▸ h b (List.mem_cons_self b t)
      · exact ih (fun x hx => h x (List.mem_cons_of_mem b hx)) it hmem

/-- A successful `updateQuantity` never changes any item's sku. -/
theorem updateQuantity_some_catInv {cart : Cart} {i d : Int} {c : Cart}
    (hu : updateQuantity cart i d = some c) (h : catInv cart) : catInv c := by
  simp only [updateQuantity] at hu
  split at hu
  · next hcond =>
    have hc := Option.some.inj hu
    intro it hit
    rw [← hc] at hit
    split at hit
    · exact h it (List.Sublist.mem hit (List.eraseIdx_sublist cart _))
    · rcases mem_set_elim hit with heq | hmem
      · have hmemget := List.get_mem cart i.toNat hcond.2
        have := h _ hmemget
        simp only [heq]
        exact this
      · exact h it hmem
  · exact absurd hu (by simp)

/-- Every cart operation keeps the cart catalog-closed. -/
theorem applyOp_catInv (cart : Cart) (op : CartOp) (h : catInv cart) :
    catInv (applyOp cart op) := by
  cases op with
  | add sku =>
    rw [applyOp, addToCart]
    cases hf : cart.find? (fun it => it.sku == sku) with
    | some x => exact bumpFirst_catInv cart sku h
    | none =>
      cases hp : products sku with
      | some p =>
        intro it hit
        rcases List.mem_append.mp hit with hmem | hmem
        · exact h it hmem
        · rw [List.mem_singleton.mp hmem]
          simp [hp]
      | none => exact h
  | update i d =>
    rw [applyOp]
    cases hu : updateQuantity cart i d with
    | none => exact h
    | some c => exact updateQuantity_some_catInv hu h
  | remove i =>
    intro it hit
    exact h it (List.Sublist.mem hit (List.eraseIdx_sublist cart _))
  | clear =>
    intro it hit
    exact absurd hit (List.not_mem_nil it)

/-- Any cart the app can reach from its empty start references catalog
products only. -/
theorem runOps_catalog (ops : List CartOp) : catInv (runOps ops) :=
  foldl_applyOp_pres applyOp_catInv ops
    (fun it hit => absurd hit (List.not_mem_nil it))

/-- **C6.** For a product id absent from the catalog, `addToCart` on any cart
the app reaches fails with `ProductNotFound` — not success, not some other
outcome — and the cart is left unchanged. -/
theorem c6_unknown_product (ops : List CartOp) (sku : String)
    (hp : products sku = none) :
    addToCart (runOps ops) sku = .error .productNotFound ∧
    applyOp (runOps ops) (.add sku) = runOps ops := by
  have hfind : (runOps ops).find? (fun it => it.sku == sku) = none := by
    rw [List.find?_eq_none]
    intro it hit hbeq
    have hs : it.sku = sku := by simpa using hbeq
    have hsome := runOps_catalog ops it hit
    rw [hs, hp] at hsome
    simp at hsome
  have h1 : addToCart (runOps ops) sku = .error .productNotFound := by
    rw [addToCart, hfind, hp]
  refine ⟨h1, ?_⟩
  rw [applyOp, h1]

/-- Witness for C6: an uncataloged sku on the empty cart errors and changes
nothing. -/
theorem c6_unknown_product_witness :
    addToCart (runOps []) "WIDGET-999" = .error .productNotFound ∧
    applyOp (runOps []) (.add "WIDGET-999") = runOps [] :=
  c6_unknown_product [] "WIDGET-999" rfl

/-! ### Persistence: JSON.stringify / JSON.parse for the cart -/

/-- The double-quote character. -/
def quoteC : Char := Char.ofNat 34

/-- The backslash character. -/
def backslashC : Char := Char.ofNat 92

/-- The opening curly bracket. -/
def lbraceC : Char := Char.ofNat 123

/-- The closing curly bracket. -/
def rbraceC : Char := Char.ofNat 125

/-- The character of a decimal digit value. -/
def digitChar (n : Nat) : Char := Char.ofNat (48 + n)

/-- Decimal digit characters of `n`, most significant first. -/
def natToDigits (n : Nat) : List Char :=
  if h : n < 10 then [digitChar n]
  else natToDigits (n / 10) ++ [digitChar (n % 10)]
termination_by n
decreasing_by exact Nat.div_lt_self (by omega) (by omega)

/-- Lowercase hexadecimal digit character of a value below 16. -/
def hexChar (n : Nat) : Char :=
  if n < 10 then Char.ofNat (48 + n) else Char.ofNat (87 + n)

/-- One character as `JSON.stringify` emits it inside a string literal:
quote and backslash escaped, control characters as short escapes or
`\u00..`, everything else verbatim. -/
def escChar (c : Char) : List Char :=
  if c = quoteC then [backslashC, quoteC]
  else if c = backslashC then [backslashC, backslashC]
  else if c = Char.ofNat 8 then [backslashC, 'b']
  else if c = Char.ofNat 9 then [backslashC, 't']
  else if c = Char.ofNat 10 then [backslashC, 'n']
  else if c = Char.ofNat 12 then [backslashC, 'f']
  else if c = Char.ofNat 13 then [backslashC, 'r']
  else if c.toNat < 32 then
    [backslashC, 'u', '0', '0', hexChar (c.toNat / 16), hexChar (c.toNat % 16)]
  else [c]

/-- The escaped body of a string literal. -/
def escBody (l : List Char) : List Char := l.foldr (fun c acc => escChar c ++ acc) []

/-- A JSON string literal, quotes included. -/
def strLit (s : String) : List Char := quoteC :: (escBody s.data ++ [quoteC])

/-- How many times `p` divides `n` (fuel-structured so it reduces in the
kernel; called with `fuel = n`). -/
def pMult (p : Nat) : Nat → Nat → Nat
  | 0, _ => 0
  | fuel + 1, n => if 2 ≤ p ∧ 0 < n ∧ n % p = 0 then pMult p fuel (n / p) + 1 else 0

/-- Decimal exponent of a denominator whose prime factors are 2 and 5: the
least `k` with `d ∣ 10 ^ k`. -/
def decExp (d : Nat) : Nat := (pMult 2 d d).max (pMult 5 d d)

/-- The decimal `m / 10 ^ k` in digit characters: integer part, then — when
`k > 0` — a dot and the `k` fraction digits (zero padded on the left). -/
def renderDec (k m : Nat) : List Char :=
  if k = 0 then natToDigits m
  else natToDigits (m / 10 ^ k) ++
    '.' :: (List.replicate (k - (natToDigits (m % 10 ^ k)).length) '0' ++
      natToDigits (m % 10 ^ k))

/-- Digit characters of a nonnegative decimal rational, as JS prints it:
integer part, then a fractional part exactly when one is needed (the decimal
exponent of the reduced denominator is minimal, so no trailing zeros
appear). -/
def printQNN (q : ℚ) : List Char :=
  renderDec (decExp q.den) ((q * 10 ^ decExp q.den).num.toNat)

/-- A JS number of the cart (a decimal rational) as `JSON.stringify` prints
it: optional minus sign, then decimal digits. -/
def printQ (q : ℚ) : List Char :=
  if q < 0 then '-' :: printQNN (-q) else printQNN q

/-- A serialized object key with its colon. -/
def keyLit (k : String) : List Char := strLit k ++ [':']

/-- `JSON.stringify` of one line item — keys in insertion order
(sku, name, price, quantity), no whitespace. -/
def itemChars (it : LineItem) : List Char :=
  lbraceC :: (keyLit "sku" ++ strLit it.sku ++ [','] ++
    keyLit "name" ++ strLit it.name ++ [','] ++
    keyLit "price" ++ printQ it.price ++ [','] ++
    keyLit "quantity" ++ printQ ((it.quantity : Int) : ℚ) ++ [rbraceC])

/-- Comma-separated concatenation of serialized elements. -/
def joinComma : List (List Char) → List Char
  | [] => []
  | [x] => x
  | x :: xs => x ++ ',' :: joinComma xs

/-- `JSON.stringify(cart)`. -/
def cartChars (cart : Cart) : List Char :=
  '[' :: (joinComma (cart.map itemChars) ++ [']'])

/-- `saveCart()`: the exact string written to `localStorage` under the fixed
key `'cart'`. -/
def saveCart (cart : Cart) : String := String.mk (cartChars cart)

/-- Decoded value of a simple JSON escape character. -/
def unescChar (c : Char) : Option Char :=
  if c = quoteC then some quoteC
  else if c = backslashC then some backslashC
  else if c = '/' then some '/'
  else if c = 'b' then some (Char.ofNat 8)
  else if c = 't' then some (Char.ofNat 9)
  else if c = 'n' then some (Char.ofNat 10)
  else if c = 'f' then some (Char.ofNat 12)
  else if c = 'r' then some (Char.ofNat 13)
  else none

/-- Body of a JSON string literal after the opening quote: the decoded
content and the remainder after the closing quote. -/
def parseStrBody : List Char → Option (List Char × List Char)
  | [] => none
  | c :: rest =>
    if c = quoteC then some ([], rest)
    else if c = backslashC then
      match rest with
      | [] => none
      | e :: rest2 =>
        if e = 'u' then
          match rest2 with
          | a :: b :: c2 :: d :: rest3 =>
            match hexDigitVal a, hexDigitVal b, hexDigitVal c2, hexDigitVal d with
            | some va, some vb, some vc, some vd =>
              match parseStrBody rest3 with
              | some (s, r) => some (Char.ofNat (((va * 16 + vb) * 16 + vc) * 16 + vd) :: s, r)
              | none => none
            | _, _, _, _ => none
          | _ => none
        else
          match unescChar e with
          | some ec =>
            match parseStrBody rest2 with
            | some (s, r) => some (ec :: s, r)
            | none => none
          | none => none
    else
      match parseStrBody rest with
      | some (s, r) => some (c :: s, r)
      | none => none

/-- A quoted JSON string at the head of the input. -/
def parseStrLit (l : List Char) : Option (List Char × List Char) :=
  match l with
  | c :: rest => if c = quoteC then parseStrBody rest else none
  | [] => none

/-- An unsigned JSON number at the head of the input (digits, optional
fraction), as an exact rational. -/
def parseNumNN (l : List Char) : Option (ℚ × List Char) :=
  match l with
  | c :: _ =>
    if isDigitC c then
      let s := scanDigits 0 0 l
      match s.2.2 with
      | d :: r2 =>
        if d = '.' then
          match r2 with
          | c2 :: _ =>
            if isDigitC c2 then
              let t := scanDigits 0 0 r2
              some ((s.1 : ℚ) + (t.1 : ℚ) / 10 ^ t.2.1, t.2.2)
            else none
          | [] => none
        else some ((s.1 : ℚ), d :: r2)
      | [] => some ((s.1 : ℚ), [])
    else none
  | [] => none

/-- A JSON number at the head of the input, with an optional minus sign. -/
def parseNum (l : List Char) : Option (ℚ × List Char) :=
  match l with
  | c :: rest =>
    if c = '-' then
      match parseNumNN rest with
      | some (q, r) => some (-q, r)
      | none => none
    else parseNumNN l
  | [] => none

/-- Expect the exact characters `ts` at the head of the input. -/
def expectLit : List Char → List Char → Option (List Char)
  | [], l => some l
  | _ :: _, [] => none
  | t :: ts, c :: cs => if c = t then expectLit ts cs else none

/-- One serialized line item, in the canonical key order `saveCart` writes;
the quantity must be an integer to fit the data model. -/
def parseItem (l : List Char) : Option (LineItem × List Char) := do
  let l1 ← expectLit (lbraceC :: keyLit "sku") l
  let ps ← parseStrLit l1
  let l3 ← expectLit (',' :: keyLit "name") ps.2
  let pn ← parseStrLit l3
  let l5 ← expectLit (',' :: keyLit "price") pn.2
  let pp ← parseNum l5
  let l7 ← expectLit (',' :: keyLit "quantity") pp.2
  let pq ← parseNum l7
  let l9 ← expectLit [rbraceC] pq.2
  if pq.1.den = 1 then
    some (⟨String.mk ps.1, String.mk pn.1, pp.1, pq.1.num⟩, l9)
  else none

/-- One-or-more comma-separated items up to the closing square bracket
(structural on `fuel`). -/
def parseItems : Nat → List Char → Option (List LineItem × List Char)
  | 0, _ => none
  | fuel + 1, l => do
    let pi ← parseItem l
    match pi.2 with
    | c :: l2 =>
      if c = ',' then do
        let pr ← parseItems fuel l2
        some (pi.1 :: pr.1, pr.2)
      else if c = ']' then some ([pi.1], l2)
      else none
    | [] => none

/-- `JSON.parse` restricted to the cart persistence format: an array of
line-item records in the canonical key order `saveCart` writes. `JSON.parse`
accepts more JSON than this (whitespace, other key orders, other value
shapes), but every such value lies outside the `Cart` data model; on input
that is not JSON at all both throw, which is the `SyntaxError` (`none`)
modelled here. -/
def parseCart (l : List Char) : Option Cart :=
  match l with
  | c :: l1 =>
    if c = '[' then
      match l1 with
      | c2 :: _ =>
        if c2 = ']' then (if l1.tail = [] then some [] else none)
        else
          match parseItems l1.length l1 with
          | some (its, r) => if r = [] then some its else none
          | none => none
      | [] => none
    else none
  | [] => none

/-- `loadCart()`: read the stored value once; `if (saved)` skips an absent or
empty value (the cart stays the initial `[]`), and `JSON.parse` throws
(`Except.error`) on malformed input — the code has no try/catch around
it. -/
def loadCart (saved : Option String) : Except JsError Cart :=
  match saved with
  | none => .ok []
  | some s =>
    if s.data = [] then .ok []
    else
      match parseCart s.data with
      | some c => .ok c
      | none => .error .syntaxError

/-! ### C5: loading a malformed stored cart -/

/-- **C5 (the code-level behaviour).** An absent stored value loads as the
empty cart, but a malformed stored value — here the non-JSON string `"{"` —
makes `loadCart` throw the uncaught `SyntaxError` from `JSON.parse` instead
of resetting to an empty cart, contradicting the spec's "must not throw". -/
theorem c5_load_malformed :
    loadCart none = .ok [] ∧
    loadCart (some (String.mk [lbraceC])) = .error .syntaxError :=
  ⟨rfl, rfl⟩

/-! ### Round-trip lemmas: digits -/

/-- The digit character of `n < 10` is a digit and carries `n`. -/
theorem digitChar_spec : ∀ n < 10, isDigitC (digitChar n) = true ∧ digitVal (digitChar n) = n := by
  decide

/-- Printed digits are digit characters. -/
theorem natToDigits_digits (n : Nat) : ∀ c ∈ natToDigits n, isDigitC c = true := by
  induction n using Nat.strongRecOn with
  | ind n ih =>
    intro c hc
    rw [natToDigits.eq_def] at hc
    by_cases h : n < 10
    · rw [dif_pos h] at hc
      rw [List.mem_singleton.mp hc]
      exact (digitChar_spec n h).1
    · rw [dif_neg h] at hc
      rcases List.mem_append.mp hc with h1 | h1
      · exact ih (n / 10) (Nat.div_lt_self (by omega) (by omega)) c h1
      · rw [List.mem_singleton.mp h1]
        exact (digitChar_spec (n % 10) (Nat.mod_lt _ (by omega))).1

/-- There is always at least one printed digit. -/
theorem natToDigits_ne_nil (n : Nat) : natToDigits n ≠ [] := by
  rw [natToDigits.eq_def]
  by_cases h : n < 10
  · simp [dif_pos h]
  · simp [dif_neg h]

/-- The printed digits start with a digit character. -/
theorem natToDigits_head_digit (n : Nat) :
    ∃ c t, natToDigits n = c :: t ∧ isDigitC c = true := by
  match hnd : natToDigits n with
  | [] => exact absurd hnd (natToDigits_ne_nil n)
  | c :: t => exact ⟨c, t, rfl, natToDigits_digits n c (hnd ▸ List.mem_cons_self c t)⟩

/-- Scanning the printed digits of `n` accumulates exactly `n` and counts
them. -/
theorem scanDigits_natToDigits (n : Nat) : ∀ v k rest,
    scanDigits v k (natToDigits n ++ rest)
      = scanDigits (v * 10 ^ (natToDigits n).length + n)
          (k + (natToDigits n).length) rest := by
  induction n using Nat.strongRecOn with
  | ind n ih =>
    intro v k rest
    rw [natToDigits.eq_def]
    by_cases h : n < 10
    · rw [dif_pos h, List.singleton_append, List.length_singleton, pow_one]
      rw [scanDigits, if_pos (digitChar_spec n h).1, (digitChar_spec n h).2]
    · rw [dif_neg h, List.append_assoc, List.singleton_append,
        ih (n / 10) (Nat.div_lt_self (by omega) (by omega)) v k]
      rw [scanDigits, if_pos (digitChar_spec (n % 10) (Nat.mod_lt _ (by omega))).1,
        (digitChar_spec (n % 10) (Nat.mod_lt _ (by omega))).2]
      have hmod : 10 * (n / 10) + n % 10 = n := Nat.div_add_mod n 10
      have harith : (v * 10 ^ (natToDigits (n / 10)).length + n / 10) * 10 + n % 10
          = v * 10 ^ ((natToDigits (n / 10)).length + 1) + n := by
        rw [pow_succ]
        calc (v * 10 ^ (natToDigits (n / 10)).length + n / 10) * 10 + n % 10
            = v * (10 ^ (natToDigits (n / 10)).length * 10)
              + (10 * (n / 10) + n % 10) := by ring
          _ = v * (10 ^ (natToDigits (n / 10)).length * 10) + n := by rw [hmod]
      rw [harith, List.length_append, List.length_singleton]
      ring_nf

/-- A list whose head is no digit. -/
def noDigitHead : List Char → Prop
  | [] => True
  | c :: _ => isDigitC c = false

/-- Scanning stops at a non-digit head. -/
theorem scanDigits_stop (v k : Nat) (rest : List Char) (h : noDigitHead rest) :
    scanDigits v k rest = (v, k, rest) := by
  cases rest with
  | nil => rfl
  | cons c t =>
    have hc : isDigitC c = false := h
    rw [scanDigits, if_neg (by simp [hc])]

/-- Scanning a run of `'0'` padding multiplies the accumulator by the matching
power of ten. -/
theorem scanDigits_zeros (z : Nat) : ∀ v k rest,
    scanDigits v k (List.replicate z '0' ++ rest)
      = scanDigits (v * 10 ^ z) (k + z) rest := by
  induction z with
  | zero => simp
  | succ z ih =>
    intro v k rest
    rw [List.replicate_succ, List.cons_append, scanDigits,
      if_pos (by decide : isDigitC '0' = true),
      (by decide : digitVal '0' = 0), ih]
    have h1 : (v * 10 + 0) * 10 ^ z = v * 10 ^ (z + 1) := by ring
    have h2 : k + 1 + z = k + (z + 1) := by omega
    rw [h1, h2]

/-- At most `k` digits are printed for a value below `10 ^ k` (for `k ≥ 1`). -/
theorem natToDigits_length_le (k : Nat) : ∀ n, 1 ≤ k → n < 10 ^ k →
    (natToDigits n).length ≤ k := by
  induction k with
  | zero => omega
  | succ k ih =>
    intro n hk hn
    rw [natToDigits.eq_def]
    by_cases h : n < 10
    · rw [dif_pos h, List.length_singleton]
      omega
    · rw [dif_neg h, List.length_append, List.length_singleton]
      have hk1 : 1 ≤ k := by
        by_contra hc
        have hk0 : k = 0 := by omega
        rw [hk0, pow_one] at hn
        omega
      have hdiv : n / 10 < 10 ^ k := by
        rw [Nat.div_lt_iff_lt_mul (by omega : 0 < 10)]
        rw [pow_succ] at hn
        exact hn
      have := ih (n / 10) hk1 hdiv
      omega

/-- At least `k + 1` digits are printed for a value at least `10 ^ k`. -/
theorem natToDigits_length_ge (k : Nat) : ∀ n, 10 ^ k ≤ n →
    k + 1 ≤ (natToDigits n).length := by
  induction k with
  | zero =>
    intro n _
    have := List.length_pos.mpr (natToDigits_ne_nil n)
    omega
  | succ k ih =>
    intro n h
    have h10 : ¬n < 10 := by
      have hpow : 10 ≤ 10 ^ (k + 1) := by
        calc (10 : Nat) = 10 ^ 1 := (pow_one 10).symm
          _ ≤ 10 ^ (k + 1) := Nat.pow_le_pow_right (by omega) (by omega)
      omega
    rw [natToDigits.eq_def, dif_neg h10, List.length_append, List.length_singleton]
    have hdiv : 10 ^ k ≤ n / 10 := by
      rw [Nat.le_div_iff_mul_le (by omega : 0 < 10)]
      calc 10 ^ k * 10 = 10 ^ (k + 1) := (pow_succ 10 k).symm
        _ ≤ n := h
    have := ih (n / 10) hdiv
    omega

/-- `expectLit` consumes exactly its own characters. -/
theorem expectLit_append (ts : List Char) : ∀ rest, expectLit ts (ts ++ rest) = some rest := by
  induction ts with
  | nil =>
    intro rest
    rfl
  | cons t ts ih =>
    intro rest
    rw [List.cons_append, expectLit, if_pos rfl]
    exact ih rest

/-! ### Round-trip lemmas: numbers -/

/-- Denominators dividing 100 (all the money and quantity denominators in a
well-formed cart) divide ten to their decimal exponent. -/
theorem den_decExp_dvd {d : Nat} (hd : d ∣ 100) : d ∣ 10 ^ decExp d := by
  have hb : ∀ e < 101, e ∣ 100 → e ∣ 10 ^ decExp e := by decide
  have hle : d ≤ 100 := Nat.le_of_dvd (by omega) hd
  exact hb d (by omega) hd

/-- The numerator of `q * 10 ^ k` recovers `q * 10 ^ k` exactly when the
denominator of `q` divides `10 ^ k` and `q` is nonnegative. -/
theorem num_toNat_mul_pow (q : ℚ) (k : Nat) (hq : 0 ≤ q) (hden : q.den ∣ 10 ^ k) :
    (((q * 10 ^ k).num.toNat : ℕ) : ℚ) = q * 10 ^ k := by
  obtain ⟨c, hc⟩ := hden
  have hden0 : (q.den : ℚ) ≠ 0 := by positivity
  have hqden : q * (q.den : ℚ) = (q.num : ℚ) := by
    have hdm : (q.num : ℚ) / (q.den : ℚ) * (q.den : ℚ) = (q.num : ℚ) :=
      div_mul_cancel₀ _ hden0
    rw [Rat.num_div_den] at hdm
    exact hdm
  have hz : q * 10 ^ k = ((q.num * (c : ℤ) : ℤ) : ℚ) := by
    have h10 : ((10 : ℚ)) ^ k = ((10 ^ k : ℕ) : ℚ) := by push_cast; ring
    rw [h10, hc]
    push_cast
    rw [← mul_assoc, hqden]
  have hnum : (q * 10 ^ k).num = q.num * (c : ℤ) := by rw [hz, Rat.num_intCast]
  have hnn : 0 ≤ q.num * (c : ℤ) :=
    mul_nonneg (Rat.num_nonneg.mpr hq) (by positivity)
  rw [hnum, hz]
  exact_mod_cast congrArg (Int.cast : ℤ → ℚ) (Int.toNat_of_nonneg hnn)

/-- A rendered decimal starts with a digit character. -/
theorem renderDec_head_digit (k m : Nat) :
    ∃ c t, renderDec k m = c :: t ∧ isDigitC c = true := by
  rw [renderDec]
  by_cases hk : k = 0
  · rw [if_pos hk]
    exact natToDigits_head_digit _
  · rw [if_neg hk]
    obtain ⟨c, t, hct, hc⟩ := natToDigits_head_digit (m / 10 ^ k)
    exact ⟨c, t ++ '.' :: (List.replicate (k - (natToDigits (m % 10 ^ k)).length) '0' ++
      natToDigits (m % 10 ^ k)), by rw [hct]; rfl, hc⟩

/-- Parsing a rendered decimal recovers its value `m / 10 ^ k`. -/
theorem parseNumNN_renderDec (k m : Nat) (rest : List Char)
    (hrest : noDigitHead rest) (hdot : rest.head? ≠ some '.') :
    parseNumNN (renderDec k m ++ rest) = some ((m : ℚ) / 10 ^ k, rest) := by
  by_cases hk : k = 0
  · subst hk
    obtain ⟨c, t, hct, hc⟩ := natToDigits_head_digit m
    rw [renderDec, if_pos rfl, hct, List.cons_append]
    have hscan : scanDigits 0 0 (c :: (t ++ rest)) = (m, (natToDigits m).length, rest) := by
      rw [← List.cons_append, ← hct, scanDigits_natToDigits m 0 0 rest,
        scanDigits_stop _ _ _ hrest]
      norm_num
    simp only [parseNumNN, if_pos hc, hscan]
    cases rest with
    | nil => norm_num
    | cons d r2 =>
      have hd : ¬(d = '.') := fun hh => hdot (by rw [hh]; rfl)
      norm_num [hd]
  · have hk1 : 1 ≤ k := by omega
    obtain ⟨c, t, hct, hc⟩ := natToDigits_head_digit (m / 10 ^ k)
    rw [renderDec, if_neg hk, hct]
    simp only [List.cons_append, List.append_assoc]
    have hscan1 : scanDigits 0 0 (c :: (t ++
        ('.' :: (List.replicate (k - (natToDigits (m % 10 ^ k)).length) '0' ++
          (natToDigits (m % 10 ^ k) ++ rest)))))
        = (m / 10 ^ k, (natToDigits (m / 10 ^ k)).length,
            '.' :: (List.replicate (k - (natToDigits (m % 10 ^ k)).length) '0' ++
              (natToDigits (m % 10 ^ k) ++ rest))) := by
      rw [← List.cons_append, ← hct, scanDigits_natToDigits, scanDigits_stop]
      · norm_num
      · exact (by decide : isDigitC '.' = false)
    have hlen_le : (natToDigits (m % 10 ^ k)).length ≤ k :=
      natToDigits_length_le k (m % 10 ^ k) hk1 (Nat.mod_lt _ (by positivity))
    have hfrac_head : ∃ c2 t2,
        List.replicate (k - (natToDigits (m % 10 ^ k)).length) '0' ++
          natToDigits (m % 10 ^ k) = c2 :: t2 ∧ isDigitC c2 = true := by
      cases hz : k - (natToDigits (m % 10 ^ k)).length with
      | zero => simpa using natToDigits_head_digit (m % 10 ^ k)
      | succ z =>
        exact ⟨'0', List.replicate z '0' ++ natToDigits (m % 10 ^ k),
          by rw [List.replicate_succ, List.cons_append], by decide⟩
    obtain ⟨c2, t2, hct2, hc2⟩ := hfrac_head
    have hr2 : List.replicate (k - (natToDigits (m % 10 ^ k)).length) '0' ++
        (natToDigits (m % 10 ^ k) ++ rest) = c2 :: (t2 ++ rest) := by
      rw [← List.append_assoc, hct2, List.cons_append]
    have hscan2 : scanDigits 0 0 (c2 :: (t2 ++ rest)) = (m % 10 ^ k, k, rest) := by
      rw [← hr2, scanDigits_zeros, scanDigits_natToDigits, scanDigits_stop _ _ _ hrest]
      have hzlen : (k - (natToDigits (m % 10 ^ k)).length) +
          (natToDigits (m % 10 ^ k)).length = k := by omega
      simp only [Nat.zero_mul, Nat.zero_add, Nat.add_zero, zero_mul, zero_add]
      rw [hzlen]
    have hval : ((m / 10 ^ k : ℕ) : ℚ) + ((m % 10 ^ k : ℕ) : ℚ) / 10 ^ k
        = (m : ℚ) / 10 ^ k := by
      have hdm : 10 ^ k * (m / 10 ^ k) + m % 10 ^ k = m := Nat.div_add_mod m (10 ^ k)
      have hcast := congrArg (Nat.cast : ℕ → ℚ) hdm
      push_cast at hcast
      have h10 : ((10 : ℚ)) ^ k ≠ 0 := by positivity
      field_simp
      linear_combination hcast
    rw [hr2]
    have hscan1c := hscan1
    rw [hr2] at hscan1c
    simp only [parseNumNN, if_pos hc, hscan1c]
    norm_num [hc2, hscan2, hval]

/-- Parsing the printed nonnegative decimal recovers it. -/
theorem parseNumNN_printQNN (q : ℚ) (hq : 0 ≤ q) (hden : q.den ∣ 10 ^ decExp q.den)
    (rest : List Char) (hrest : noDigitHead rest) (hdot : rest.head? ≠ some '.') :
    parseNumNN (printQNN q ++ rest) = some (q, rest) := by
  rw [printQNN, parseNumNN_renderDec _ _ rest hrest hdot]
  have hmq := num_toNat_mul_pow q (decExp q.den) hq hden
  have h10 : ((10 : ℚ)) ^ decExp q.den ≠ 0 := by positivity
  rw [hmq, mul_div_assoc, div_self h10, mul_one]

/-- Parsing the printed signed decimal recovers it. -/
theorem parseNum_printQ (q : ℚ) (hden : q.den ∣ 10 ^ decExp q.den)
    (rest : List Char) (hrest : noDigitHead rest) (hdot : rest.head? ≠ some '.') :
    parseNum (printQ q ++ rest) = some (q, rest) := by
  by_cases hq : q < 0
  · rw [printQ, if_pos hq, List.cons_append]
    have hdenn : (-q).den ∣ 10 ^ decExp (-q).den := by rw [Rat.neg_den]; exact hden
    simp only [parseNum, if_pos (rfl : ('-' : Char) = '-')]
    rw [parseNumNN_printQNN (-q) (by linarith) hdenn rest hrest hdot]
    norm_num
  · rw [printQ, if_neg hq, printQNN]
    obtain ⟨c, t, hct, hc⟩ :=
      renderDec_head_digit (decExp q.den) ((q * 10 ^ decExp q.den).num.toNat)
    rw [hct, List.cons_append]
    have hcm : ¬(c = '-') := by
      intro hh
      rw [hh] at hc
      exact absurd hc (by decide)
    simp only [parseNum, if_neg hcm]
    rw [← List.cons_append, ← hct, ← printQNN]
    exact parseNumNN_printQNN q (by linarith) hden rest hrest hdot

/-! ### Round-trip lemmas: strings -/

/-- `hexDigitVal` inverts `hexChar` on values below 16. -/
theorem hexDigitVal_hexChar : ∀ d < 16, hexDigitVal (hexChar d) = some d := by decide

/-- Parsing an escaped body recovers the original characters up to the
closing quote. -/
theorem parseStrBody_escBody (l : List Char) : ∀ rest : List Char,
    parseStrBody (escBody l ++ quoteC :: rest) = some (l, rest) := by
  have hbq : ¬backslashC = quoteC := by decide
  have hqu : ¬quoteC = 'u' := by decide
  have hbu : ¬backslashC = 'u' := by decide
  have hesc1 : ∀ e : Char, e = 'b' ∨ e = 't' ∨ e = 'n' ∨ e = 'f' ∨ e = 'r' →
      (¬e = quoteC ∧ ¬e = backslashC ∧ ¬e = 'u' ∧ ¬e = '/') := by
    intro e he
    rcases he with rfl | rfl | rfl | rfl | rfl <;> exact (by decide)
  induction l with
  | nil =>
    intro rest
    show parseStrBody (quoteC :: rest) = some ([], rest)
    rw [parseStrBody.eq_def]
    simp
  | cons c l ih =>
    intro rest
    have hesc : escBody (c :: l) = escChar c ++ escBody l := rfl
    rw [hesc, List.append_assoc, escChar]
    by_cases h1 : c = quoteC
    · rw [if_pos h1]
      simp only [List.cons_append, List.nil_append]
      rw [parseStrBody.eq_def]
      simp [unescChar, ih, h1, hbq, hqu]
    · rw [if_neg h1]
      by_cases h2 : c = backslashC
      · rw [if_pos h2]
        simp only [List.cons_append, List.nil_append]
        rw [parseStrBody.eq_def]
        simp [unescChar, ih, h2, hbq, hbu]
      · rw [if_neg h2]
        by_cases h3 : c = Char.ofNat 8
        · rw [if_pos h3]
          simp only [List.cons_append, List.nil_append]
          rw [parseStrBody.eq_def]
          have he := hesc1 'b' (by tauto); simp [unescChar, ih, h3, hbq, he.1, he.2.1, he.2.2.1, he.2.2.2]
        · rw [if_neg h3]
          by_cases h4 : c = Char.ofNat 9
          · rw [if_pos h4]
            simp only [List.cons_append, List.nil_append]
            rw [parseStrBody.eq_def]
            have he := hesc1 't' (by tauto); simp [unescChar, ih, h4, hbq, he.1, he.2.1, he.2.2.1, he.2.2.2]
          · rw [if_neg h4]
            by_cases h5 : c = Char.ofNat 10
            · rw [if_pos h5]
              simp only [List.cons_append, List.nil_append]
              rw [parseStrBody.eq_def]
              have he := hesc1 'n' (by tauto); simp [unescChar, ih, h5, hbq, he.1, he.2.1, he.2.2.1, he.2.2.2]
            · rw [if_neg h5]
              by_cases h6 : c = Char.ofNat 12
              · rw [if_pos h6]
                simp only [List.cons_append, List.nil_append]
                rw [parseStrBody.eq_def]
                have he := hesc1 'f' (by tauto); simp [unescChar, ih, h6, hbq, he.1, he.2.1, he.2.2.1, he.2.2.2]
              · rw [if_neg h6]
                by_cases h7 : c = Char.ofNat 13
                · rw [if_pos h7]
                  simp only [List.cons_append, List.nil_append]
                  rw [parseStrBody.eq_def]
                  have he := hesc1 'r' (by tauto); simp [unescChar, ih, h7, hbq, he.1, he.2.1, he.2.2.1, he.2.2.2]
                · rw [if_neg h7]
                  by_cases h8 : c.toNat < 32
                  · rw [if_pos h8]
                    have hhi := hexDigitVal_hexChar (c.toNat / 16) (by omega)
                    have hlo := hexDigitVal_hexChar (c.toNat % 16) (by omega)
                    have harith : c.toNat / 16 * 16 + c.toNat % 16 = c.toNat := by
                      omega
                    simp only [List.cons_append, List.nil_append]
                    rw [parseStrBody.eq_def]
                    simp [hbq, (by decide : hexDigitVal '0' = some 0), hhi, hlo, ih,
                      harith, Char.ofNat_toNat]
                  · rw [if_neg h8]
                    simp only [List.cons_append, List.nil_append]
                    rw [parseStrBody.eq_def]
                    simp [h1, h2, ih]

/-- Parsing a rendered string literal recovers the original string's
characters. -/
theorem parseStrLit_strLit (s : String) (rest : List Char) :
    parseStrLit (strLit s ++ rest) = some (s.data, rest) := by
  rw [strLit, List.cons_append, parseStrLit, if_pos rfl, List.append_assoc,
    List.singleton_append]
  exact parseStrBody_escBody s.data rest

/-! ### Round-trip lemmas: items and carts -/

/-- A cart item the program can actually build: its price is a 2-decimal
nonnegative amount (all catalog prices are such). -/
def wfItem (it : LineItem) : Prop := ∃ m : ℕ, it.price = (m : ℚ) / 100

/-- The reduced denominator of `m / 100` divides 100. -/
theorem den_div_100_dvd (m : Nat) : (((m : ℚ)) / 100).den ∣ 100 := by
  have h := Rat.den_dvd (m : ℤ) (100 : ℤ)
  rw [Rat.divInt_eq_div] at h
  have h2 : (((m : ℚ)) / 100).den = (((m : ℤ) : ℚ) / ((100 : ℤ) : ℚ)).den := by
    norm_num
  rw [h2]
  exact_mod_cast h

/-- A cons list with a non-digit head. -/
theorem noDigitHead_cons {c : Char} {X : List Char} (h : isDigitC c = false) :
    noDigitHead (c :: X) := h

/-- `expectLit` through an explicit head character. -/
theorem expectLit_cons (t : Char) (ts X : List Char) :
    expectLit (t :: ts) (t :: (ts ++ X)) = some X := by
  have h := expectLit_append (t :: ts) X
  rw [List.cons_append] at h
  exact h

/-- `expectLit` of a single character. -/
theorem expectLit_single (t : Char) (X : List Char) : expectLit [t] (t :: X) = some X := by
  simpa using expectLit_cons t [] X

/-- A printed number followed by a comma parses up to the comma. -/
theorem parseNum_printQ_comma (q : ℚ) (hden : q.den ∣ 10 ^ decExp q.den) (X : List Char) :
    parseNum (printQ q ++ (',' :: X)) = some (q, ',' :: X) :=
  parseNum_printQ q hden (',' :: X) (noDigitHead_cons (by decide)) (by simp)

/-- A printed number followed by a closing brace parses up to the brace. -/
theorem parseNum_printQ_rbrace (q : ℚ) (hden : q.den ∣ 10 ^ decExp q.den) (X : List Char) :
    parseNum (printQ q ++ (rbraceC :: X)) = some (q, rbraceC :: X) := by
  have hnb : ¬rbraceC = '.' := by decide
  exact parseNum_printQ q hden (rbraceC :: X) (noDigitHead_cons (by decide)) (by simp [hnb])

/-- `String.mk` inverts `String.data`. -/
theorem stringMk_data (s : String) : String.mk s.data = s := rfl

/-- Parsing a serialized line item recovers it exactly. -/
theorem parseItem_itemChars (it : LineItem) (hwf : wfItem it) (rest : List Char) :
    parseItem (itemChars it ++ rest) = some (it, rest) := by
  obtain ⟨mp, hmp⟩ := hwf
  have hden6 : it.price.den ∣ 10 ^ decExp it.price.den := by
    rw [hmp]
    exact den_decExp_dvd (den_div_100_dvd mp)
  have hden8 : (((it.quantity : Int) : ℚ)).den ∣ 10 ^ decExp (((it.quantity : Int) : ℚ)).den := by
    rw [Rat.den_intCast]
    exact one_dvd _
  have hshape : itemChars it ++ rest
      = lbraceC :: (keyLit "sku" ++ (strLit it.sku ++ (',' :: (keyLit "name" ++
          (strLit it.name ++ (',' :: (keyLit "price" ++ (printQ it.price ++
          (',' :: (keyLit "quantity" ++ (printQ ((it.quantity : Int) : ℚ) ++
          (rbraceC :: rest)))))))))))) := by
    simp [itemChars]
  rw [hshape]
  simp [parseItem, expectLit_cons, parseStrLit_strLit,
    parseNum_printQ_comma it.price hden6, parseNum_printQ_rbrace _ hden8,
    expectLit_single, Rat.den_intCast, Rat.num_intCast, stringMk_data]

/-- A serialized item is never empty (it opens with a brace). -/
theorem itemChars_ne_nil (it : LineItem) : itemChars it ≠ [] := by
  simp [itemChars]

/-- `joinComma` of nonempty chunks has at least one character per chunk. -/
theorem joinComma_length (ls : List (List Char)) (h : ∀ x ∈ ls, x ≠ []) :
    ls.length ≤ (joinComma ls).length := by
  match ls with
  | [] => simp [joinComma]
  | [x] =>
    have hx := List.length_pos.mpr (h x (by simp))
    simp only [joinComma, List.length_singleton]
    omega
  | x :: y :: t =>
    have hx := List.length_pos.mpr (h x (by simp))
    have ih := joinComma_length (y :: t) (fun z hz => h z (List.mem_cons_of_mem x hz))
    simp only [joinComma, List.length_cons, List.length_append] at ih ⊢
    omega

/-- Parsing a serialized nonempty item list up to the closing bracket
recovers the items. -/
theorem parseItems_joinComma (its : List LineItem) : ∀ (fuel : Nat) (rest : List Char),
    its ≠ [] → (∀ it ∈ its, wfItem it) → its.length ≤ fuel →
    parseItems fuel (joinComma (its.map itemChars) ++ ']' :: rest) = some (its, rest) := by
  induction its with
  | nil =>
    intro fuel rest h
    exact absurd rfl h
  | cons it its ih =>
    intro fuel rest _ hwf hfuel
    match fuel, hfuel with
    | fuel + 1, hfuel2 =>
      cases its with
      | nil =>
        simp only [List.map_cons, List.map_nil, joinComma]
        simp [parseItems, parseItem_itemChars it (hwf it (by simp)) (']' :: rest),
          (by decide : ¬(']' : Char) = ',')]
      | cons it2 its2 =>
        simp only [List.map_cons, joinComma, List.append_assoc, List.cons_append]
        have hih := ih fuel rest (by simp) (fun x hx => hwf x (List.mem_cons_of_mem it hx))
          (by simp only [List.length_cons] at hfuel2 ⊢; omega)
        simp only [List.map_cons] at hih
        simp [parseItems,
          parseItem_itemChars it (hwf it (by simp))
            (',' :: (joinComma (itemChars it2 :: its2.map itemChars) ++ ']' :: rest)),
          hih]

/-- `joinComma` keeps the head character of its first chunk. -/
theorem joinComma_cons_head (c : Char) (body : List Char) (xs : List (List Char)) :
    ∃ t, joinComma ((c :: body) :: xs) = c :: t := by
  cases xs with
  | nil => exact ⟨body, rfl⟩
  | cons y ys => exact ⟨body ++ ',' :: joinComma (y :: ys), rfl⟩

/-- The serialized form of a nonempty cart's items opens with a brace. -/
theorem joinComma_map_head (it : LineItem) (its : List LineItem) :
    ∃ t, joinComma ((it :: its).map itemChars) = lbraceC :: t := by
  rw [List.map_cons]
  obtain ⟨body, hb⟩ : ∃ body, itemChars it = lbraceC :: body := ⟨_, rfl⟩
  rw [hb]
  exact joinComma_cons_head lbraceC body (its.map itemChars)

/-- Parsing the serialized cart recovers it exactly. -/
theorem parseCart_cartChars (cart : Cart) (hwf : ∀ it ∈ cart, wfItem it) :
    parseCart (cartChars cart) = some cart := by
  cases cart with
  | nil => rfl
  | cons it its =>
    obtain ⟨tb, htb⟩ := joinComma_map_head it its
    have hjoin : joinComma ((it :: its).map itemChars) ++ [']'] = lbraceC :: (tb ++ [']']) := by
      rw [htb, List.cons_append]
    have hlen : (it :: its).length ≤ (joinComma ((it :: its).map itemChars) ++ [']']).length := by
      have h1 := joinComma_length ((it :: its).map itemChars) (fun x hx => by
        obtain ⟨y, _, rfl⟩ := List.mem_map.mp hx
        exact itemChars_ne_nil y)
      simp only [List.length_map] at h1
      simp only [List.length_append, List.length_singleton]
      omega
    have hparse := parseItems_joinComma (it :: its)
      ((joinComma ((it :: its).map itemChars) ++ [']']).length) [] (by simp) hwf hlen
    rw [show joinComma ((it :: its).map itemChars) ++ ']' :: ([] : List Char)
        = joinComma ((it :: its).map itemChars) ++ [']'] from rfl, hjoin] at hparse
    simp only [List.length_cons, List.length_append, List.length_singleton,
      List.length_nil] at hparse
    rw [cartChars, hjoin]
    simp [parseCart, (by decide : ¬lbraceC = ']'), hparse]

/-- **C7 supporting equation.** `loadCart` after `saveCart` restores the very
same ordered line-item list (for carts whose prices are 2-decimal amounts,
which is every price the program handles). -/
theorem loadCart_saveCart (cart : Cart) (hwf : ∀ it ∈ cart, wfItem it) :
    loadCart (some (saveCart cart)) = .ok cart := by
  have hdata : (saveCart cart).data = cartChars cart := rfl
  have hne2 : ¬cartChars cart = [] := by
    rw [cartChars]
    simp
  simp [loadCart, hdata, hne2, parseCart_cartChars cart hwf]

/-! ### C7: persistence round trip -/

/-- **C7.** Serializing a cart with `saveCart` and reloading it with
`loadCart` yields the identical ordered sequence of line items (for carts
whose prices are 2-decimal amounts — every price the program handles). -/
theorem c7_persistence_roundtrip (cart : Cart)
    (hwf : ∀ it ∈ cart, ∃ m : ℕ, it.price = (m : ℚ) / 100) :
    loadCart (some (saveCart cart)) = .ok cart :=
  loadCart_saveCart cart hwf

/-- Witness for C7 at a concrete one-laptop cart. -/
theorem c7_persistence_roundtrip_witness :
    loadCart (some (saveCart [⟨"LAPTOP-001", "Gaming Laptop Pro", 1299.99, 1⟩])) =
      .ok [⟨"LAPTOP-001", "Gaming Laptop Pro", 1299.99, 1⟩] :=
  c7_persistence_roundtrip [⟨"LAPTOP-001", "Gaming Laptop Pro", 1299.99, 1⟩]
    (fun it hit => by
      rw [List.mem_singleton.mp hit]
      exact ⟨129999, by norm_num⟩)

/-! ### Checkout completion -/

/-- `'ORD-' + Math.floor(10000000 + Math.random() * 90000000)`, with the
`Math.random()` draw `r` made an explicit parameter. -/
def orderNumber (r : ℚ) : String :=
  String.mk (['O', 'R', 'D', '-'] ++ natToDigits (⌊(10000000 : ℚ) + r * 90000000⌋).toNat)

/-- Checkout submission outcome. -/
inductive CheckoutResult where
  | rejected (reason : ValidationResult)
  | completed (orderNum : String)
deriving DecidableEq, Repr

/-- `handleCheckout(e)` on the model state: validate; on success generate the
order number, clear the cart, and persist the cleared cart. The third
component is the value written to storage (`none` when nothing is
written). -/
def handleCheckout (cart : Cart) (card expiry : String) (fullYear month : Nat) (r : ℚ) :
    CheckoutResult × Cart × Option String :=
  match validateCard card expiry fullYear month with
  | .invalidCardLength => (.rejected .invalidCardLength, cart, none)
  | .cardExpired => (.rejected .cardExpired, cart, none)
  | .ok => (.completed (orderNumber r), [], some (saveCart []))

/-! ### C8: successful checkout -/

/-- **C8.** A checkout submission that passes validation on a non-empty cart
completes with the cart cleared (and the persisted cart equal to the empty
array `"[]"`, which reloads as the empty cart), and its order number is the
literal `"ORD-"` followed by exactly 8 decimal digits whose value lies in
[10000000, 99999999]. -/
theorem c8_checkout_success (cart : Cart) (card expiry : String) (fullYear month : Nat)
    (r : ℚ) (hcart : cart ≠ []) (hv : validateCard card expiry fullYear month = .ok)
    (hr0 : 0 ≤ r) (hr1 : r < 1) :
    ∃ k : Nat, 10000000 ≤ k ∧ k ≤ 99999999 ∧ (natToDigits k).length = 8 ∧
      handleCheckout cart card expiry fullYear month r =
        (.completed (String.mk (['O', 'R', 'D', '-'] ++ natToDigits k)), [],
          some (saveCart [])) ∧
      saveCart [] = "[]" ∧ loadCart (some (saveCart [])) = .ok [] := by
  have h1 : (10000000 : ℤ) ≤ ⌊(10000000 : ℚ) + r * 90000000⌋ := by
    apply Int.le_floor.mpr
    push_cast
    nlinarith
  have h2 : ⌊(10000000 : ℚ) + r * 90000000⌋ < 100000000 := by
    apply Int.floor_lt.mpr
    push_cast
    nlinarith
  have hk1 : 10000000 ≤ (⌊(10000000 : ℚ) + r * 90000000⌋).toNat := by omega
  have hk2 : (⌊(10000000 : ℚ) + r * 90000000⌋).toNat ≤ 99999999 := by omega
  have hge : 7 + 1 ≤ (natToDigits (⌊(10000000 : ℚ) + r * 90000000⌋).toNat).length := by
    apply natToDigits_length_ge 7
    calc (10 : ℕ) ^ 7 = 10000000 := by norm_num
      _ ≤ _ := hk1
  have hle : (natToDigits (⌊(10000000 : ℚ) + r * 90000000⌋).toNat).length ≤ 8 := by
    apply natToDigits_length_le 8 _ (by omega)
    calc (⌊(10000000 : ℚ) + r * 90000000⌋).toNat ≤ 99999999 := hk2
      _ < 10 ^ 8 := by norm_num
  refine ⟨(⌊(10000000 : ℚ) + r * 90000000⌋).toNat, hk1, hk2, by omega, ?_, rfl, rfl⟩
  rw [handleCheckout, hv]
  rfl

/-- Witness for C8: checking out a one-mouse cart with a valid 16-digit card,
expiry `12/99`, in October 2025, with the random draw 0. -/
theorem c8_checkout_success_witness :
    ∃ k : Nat, 10000000 ≤ k ∧ k ≤ 99999999 ∧ (natToDigits k).length = 8 ∧
      handleCheckout [⟨"MOUSE-001", "Gaming Mouse Ultra", 79.99, 1⟩]
          "4242424242424242" "12/99" 2025 10 0 =
        (.completed (String.mk (['O', 'R', 'D', '-'] ++ natToDigits k)), [],
          some (saveCart [])) ∧
      saveCart [] = "[]" ∧ loadCart (some (saveCart [])) = .ok [] :=
  c8_checkout_success [⟨"MOUSE-001", "Gaming Mouse Ultra", 79.99, 1⟩]
    "4242424242424242" "12/99" 2025 10 0 (by simp) (by decide)
    (by norm_num) (by norm_num)
